import Mathlib

/-!
Shallow embedding of the dependabot-config generator (src/main.rs).

Modelling conventions:
- A filesystem path is a list of components (`List String`); the Rust code
  handles `std::path::Path` values, whose `strip_prefix`, `parent` and
  `file_name` operations are component-wise.  `MAIN_SEPARATOR` is modelled
  as the slash of the deployment platform, so rendering a relative path as
  a string joins the components with a slash.
- The glob patterns of the `globset` crate are built with
  `empty_alternates(true)` and default `literal_separator(false)`; brace
  alternation is expanded into a list of alternatives, and `*` matches any
  character sequence, separators included.  None of the patterns in the
  source use `?` or character classes, so a pattern is a sequence of
  literal chunks and stars.
- `ECOSYSTEMS` is a `HashMap` whose iteration order is unspecified; the
  embedding threads the iteration order as an explicit list parameter
  (`ecoOrder`), and theorems quantify over permutations of the full key
  list where the order matters.
- The `walkdir` traversal with `filter_entry` is modelled on an explicit
  directory tree; errors and symbolic links are out of scope.
- The `expect("Couldnt strip prefix")` panic in `find_targets` is
  modelled as an `Except.error`.
-/

/-- Package ecosystems supported by the scanner: the `PackageEcosystem`
variants of the `dependabot-config` crate that `src/main.rs` imports. -/
inductive PackageEcosystem where
  | Bun
  | Bundler
  | Cargo
  | Composer
  | Devcontainers
  | Docker
  | DockerCompose
  | DotnetSdk
  | Mix
  | Elm
  | Gitsubmodule
  | GithubActions
  | Gomod
  | Gradle
  | Helm
  | Maven
  | Npm
  | Nuget
  | Pip
  | Pub
  | Swift
  | Terraform
  | Uv
deriving DecidableEq, Fintype, Repr

open PackageEcosystem

/-- Display name of an ecosystem.  Modelled from the `Display`
implementation of the `dependabot-config` crate, which renders each
variant as its dependabot v2 `package-ecosystem` string (the repository
test `deduplication_and_sorting_test` pins `cargo`, `github-actions` and
`npm`). -/
def displayName : PackageEcosystem → String
  | Bun => "bun"
  | Bundler => "bundler"
  | Cargo => "cargo"
  | Composer => "composer"
  | Devcontainers => "devcontainers"
  | Docker => "docker"
  | DockerCompose => "docker-compose"
  | DotnetSdk => "dotnet-sdk"
  | Mix => "mix"
  | Elm => "elm"
  | Gitsubmodule => "gitsubmodule"
  | GithubActions => "github-actions"
  | Gomod => "gomod"
  | Gradle => "gradle"
  | Helm => "helm"
  | Maven => "maven"
  | Npm => "npm"
  | Nuget => "nuget"
  | Pip => "pip"
  | Pub => "pub"
  | Swift => "swift"
  | Terraform => "terraform"
  | Uv => "uv"

/-- One token of a compiled glob pattern: a literal chunk or a `*`. -/
inductive GTok where
  | lit (s : String)
  | star
deriving DecidableEq, Repr

/-- Glob matching against a whole candidate string (as a character list).
`*` matches any sequence of characters, separators included, because the
source builds its globs with the default `literal_separator(false)`. -/
def gmatch : List GTok → List Char → Bool
  | [], cs => cs.isEmpty
  | .lit s :: ts, cs => (s.toList.isPrefixOf cs) && gmatch ts (cs.drop s.toList.length)
  | .star :: ts, cs => cs.tails.any (fun rest => gmatch ts rest)

/-- A glob set matches a candidate when any of its patterns does. -/
def isMatch (gs : List (List GTok)) (s : String) : Bool :=
  gs.any (fun p => gmatch p s.toList)

/-- Source pattern `["bun.lock"]`. -/
def PATTERNS_BUN : List (List GTok) := [[.lit "bun.lock"]]

/-- Source pattern `["Gemfile{,.lock}"]`, brace-expanded. -/
def PATTERNS_BUNDLER : List (List GTok) := [[.lit "Gemfile"], [.lit "Gemfile.lock"]]

/-- Source pattern `["Cargo.{toml,lock}"]`, brace-expanded. -/
def PATTERNS_CARGO : List (List GTok) := [[.lit "Cargo.toml"], [.lit "Cargo.lock"]]

/-- Source pattern `["composer.{json,lock}"]`, brace-expanded. -/
def PATTERNS_COMPOSER : List (List GTok) := [[.lit "composer.json"], [.lit "composer.lock"]]

/-- Source pattern `["{,.}devcontainer{,-lock}.json"]`, brace-expanded. -/
def PATTERNS_DEVCONTAINERS : List (List GTok) :=
  [[.lit "devcontainer.json"], [.lit "devcontainer-lock.json"],
   [.lit ".devcontainer.json"], [.lit ".devcontainer-lock.json"]]

/-- Source pattern `["*Dockerfile*"]`. -/
def PATTERNS_DOCKER : List (List GTok) := [[.star, .lit "Dockerfile", .star]]

/-- Source pattern `["*docker-compose*.y{,a}ml"]`, brace-expanded. -/
def PATTERNS_DOCKER_COMPOSE : List (List GTok) :=
  [[.star, .lit "docker-compose", .star, .lit ".yml"],
   [.star, .lit "docker-compose", .star, .lit ".yaml"]]

/-- Source pattern `["global.json"]`. -/
def PATTERNS_DOTNET_SDK : List (List GTok) := [[.lit "global.json"]]

/-- Source pattern `["elm.json"]`. -/
def PATTERNS_ELM : List (List GTok) := [[.lit "elm.json"]]

/-- Source pattern `[".gitmodules"]`. -/
def PATTERNS_GITSUBMODULES : List (List GTok) := [[.lit ".gitmodules"]]

/-- Source pattern `[".github/workflows/*.y{,a}ml"]`, brace-expanded;
it contains path separators and is matched against a root-relative path. -/
def PATTERNS_GITHUBACTIONS : List (List GTok) :=
  [[.lit ".github/workflows/", .star, .lit ".yml"],
   [.lit ".github/workflows/", .star, .lit ".yaml"]]

/-- Source pattern `["go.{mod,sum}"]`, brace-expanded. -/
def PATTERNS_GOMOD : List (List GTok) := [[.lit "go.mod"], [.lit "go.sum"]]

/-- Source patterns `["build.gradle{,.kts}", "gradle.build", "settings.gradle"]`. -/
def PATTERNS_GRADLE : List (List GTok) :=
  [[.lit "build.gradle"], [.lit "build.gradle.kts"], [.lit "gradle.build"], [.lit "settings.gradle"]]

/-- Source pattern `["Chart.lock"]`. -/
def PATTERNS_HELM : List (List GTok) := [[.lit "Chart.lock"]]

/-- Source pattern `["pom.xml"]`. -/
def PATTERNS_MAVEN : List (List GTok) := [[.lit "pom.xml"]]

/-- Source pattern `["mix.{exs,lock}"]`, brace-expanded. -/
def PATTERNS_MIX : List (List GTok) := [[.lit "mix.exs"], [.lit "mix.lock"]]

/-- Source patterns `["package{,-lock}.json", "{deno,yarn}.lock", "pnpm-lock.yaml"]`. -/
def PATTERNS_NPM : List (List GTok) :=
  [[.lit "package.json"], [.lit "package-lock.json"],
   [.lit "deno.lock"], [.lit "yarn.lock"], [.lit "pnpm-lock.yaml"]]

/-- Source patterns `["*.csproj", "project.json", "packages.config"]`. -/
def PATTERNS_NUGET : List (List GTok) :=
  [[.star, .lit ".csproj"], [.lit "project.json"], [.lit "packages.config"]]

/-- Source patterns for pip, brace-expanded. -/
def PATTERNS_PIP : List (List GTok) :=
  [[.lit "pyproject.toml"], [.lit "setup.cfg"], [.lit "setup.py"],
   [.lit "requirements", .star, .lit ".in"], [.lit "requirements", .star, .lit ".txt"],
   [.lit "poetry.lock"], [.lit "Pipfile"], [.lit "Pipfile.lock"]]

/-- Source pattern `["pubspec.{yaml,lock}"]`, brace-expanded. -/
def PATTERNS_PUB : List (List GTok) := [[.lit "pubspec.yaml"], [.lit "pubspec.lock"]]

/-- Source pattern `["Package.{swift,resolved}"]`, brace-expanded. -/
def PATTERNS_SWIFT : List (List GTok) := [[.lit "Package.swift"], [.lit "Package.resolved"]]

/-- Source patterns `["{main,variables}.tf", "terraform.tfstate", ".terraform.lock.hcl"]`. -/
def PATTERNS_TERRAFORM : List (List GTok) :=
  [[.lit "main.tf"], [.lit "variables.tf"], [.lit "terraform.tfstate"], [.lit ".terraform.lock.hcl"]]

/-- Source pattern `["uv.lock"]`. -/
def PATTERNS_UV : List (List GTok) := [[.lit "uv.lock"]]

/-- The `ECOSYSTEMS` map, as the function from key to compiled glob set. -/
def globsetOf : PackageEcosystem → List (List GTok)
  | Bun => PATTERNS_BUN
  | Bundler => PATTERNS_BUNDLER
  | Cargo => PATTERNS_CARGO
  | Composer => PATTERNS_COMPOSER
  | Devcontainers => PATTERNS_DEVCONTAINERS
  | Docker => PATTERNS_DOCKER
  | DockerCompose => PATTERNS_DOCKER_COMPOSE
  | DotnetSdk => PATTERNS_DOTNET_SDK
  | Mix => PATTERNS_MIX
  | Elm => PATTERNS_ELM
  | Gitsubmodule => PATTERNS_GITSUBMODULES
  | GithubActions => PATTERNS_GITHUBACTIONS
  | Gomod => PATTERNS_GOMOD
  | Gradle => PATTERNS_GRADLE
  | Helm => PATTERNS_HELM
  | Maven => PATTERNS_MAVEN
  | Npm => PATTERNS_NPM
  | Nuget => PATTERNS_NUGET
  | Pip => PATTERNS_PIP
  | Pub => PATTERNS_PUB
  | Swift => PATTERNS_SWIFT
  | Terraform => PATTERNS_TERRAFORM
  | Uv => PATTERNS_UV

/-- The key set of the `ECOSYSTEMS` map, written in the insertion order of
the `HashMap::from` array in the source.  The map itself iterates in an
unspecified order, so theorems quantify over permutations of this list. -/
def allEcosystems : List PackageEcosystem :=
  [Bun, Bundler, Cargo, Composer, Devcontainers, Docker, DockerCompose, DotnetSdk,
   Mix, Elm, Gitsubmodule, GithubActions, Gomod, Gradle, Helm, Maven, Npm, Nuget,
   Pip, Pub, Swift, Terraform, Uv]

/-- Render a relative path (component list) as a string, joining with the
platform separator as `Path::to_str` does. -/
def pathToString (p : List String) : String :=
  String.intercalate "/" p

/-- Component-wise `Path::strip_prefix`: drop `root` from the front of `p`
when it is a prefix, as the `Ok`/`Err` of the Rust call. -/
def stripPrefixPath (root p : List String) : Option (List String) :=
  if root.isPrefixOf p then some (p.drop root.length) else none

/-- The test one iteration of the loop in `find_ecosystem` applies to
ecosystem `e` for the entry at `path`: the `GithubActions` glob set is
matched against the root-relative path, every other glob set against the
file name alone. -/
def matchesAt (e : PackageEcosystem) (root path : List String) : Bool :=
  if e = GithubActions then
    match stripPrefixPath root path with
    | some sub => isMatch (globsetOf e) (pathToString sub)
    | none => false
  else
    match path.getLast? with
    | some filename => isMatch (globsetOf e) filename
    | none => false

/-- `find_ecosystem` from the source: return `none` when the path has no
file name, otherwise the first ecosystem of the iteration order whose test
matches. -/
def find_ecosystem (ecoOrder : List PackageEcosystem) (path root : List String) :
    Option PackageEcosystem :=
  match path.getLast? with
  | none => none
  | some _ =>
      ecoOrder.findSome? (fun e => if matchesAt e root path then some e else none)

/-- Boolean lexicographic order on character lists, by code point.  This is
order-equivalent to the byte-wise `Ord` on Rust `String` values, since
UTF-8 preserves code-point order. -/
def charListLe : List Char → List Char → Bool
  | [], _ => true
  | _ :: _, [] => false
  | a :: as, b :: bs => if a = b then charListLe as bs else decide (a < b)

/-- Total order on strings used by `BTreeSet<String>` and `str::cmp`. -/
def strLe (a b : String) : Bool :=
  charListLe a.toList b.toList

/-- Component-wise `str::starts_with`. -/
def strHasPfx (p s : String) : Bool :=
  p.toList.isPrefixOf s.toList

/-- String form of `MAIN_SEPARATOR`, the value `MAIN_SEPARATOR.to_string()`
that the source uses as the root marker directory. -/
def rootMarker : String := "/"

/-- The `gha_or_empty` closure in `find_targets`: replace the relative
parent directory string by the root marker when it is empty, when the
ecosystem is `GithubActions`, or when the ecosystem is `Devcontainers` and
the directory is `.devcontainer` or lies under it; otherwise keep it. -/
def gha_or_empty (e : PackageEcosystem) (p : String) : String :=
  if p = "" ∨ e = GithubActions ∨
      (e = Devcontainers ∧ (p = ".devcontainer" ∨ strHasPfx ".devcontainer/" p = true)) then
    rootMarker
  else p

/-- `is_ignored` from the source: the entry name is tested for membership
in the ignored-directory name set. -/
def is_ignored (ignored_dirs : List String) (name : String) : Bool :=
  ignored_dirs.contains name

mutual
/-- A directory tree: what the `walkdir::WalkDir` traversal walks. -/
inductive FSTree where
  | file (name : String)
  | dir (name : String) (children : FSForest)
/-- The child list of a directory, in the order the operating system
yields the entries. -/
inductive FSForest where
  | nil
  | cons (head : FSTree) (tail : FSForest)
end

mutual
/-- Depth-first traversal with `filter_entry` pruning, as relative paths:
an entry whose name is ignored is skipped and, for a directory, its whole
subtree is never descended into. -/
def walkTree (ignored_dirs : List String) : FSTree → List (List String)
  | .file n => if is_ignored ignored_dirs n then [] else [[n]]
  | .dir n cs =>
      if is_ignored ignored_dirs n then []
      else [n] :: (walkForest ignored_dirs cs).map (n :: ·)
/-- Depth-first traversal of a forest with `filter_entry` pruning. -/
def walkForest (ignored_dirs : List String) : FSForest → List (List String)
  | .nil => []
  | .cons t ts => walkTree ignored_dirs t ++ walkForest ignored_dirs ts
end

/-- The filtered walk of `WalkDir::new(root)` rooted at the directory with
path `root` and contents `children`: the root entry itself is also passed
through `filter_entry`, and every yielded path is the root path followed
by the relative path inside the tree. -/
def walkFiltered (ignored_dirs : List String) (root : List String) (children : FSForest) :
    List (List String) :=
  match root.getLast? with
  | none => []
  | some rootName =>
      if is_ignored ignored_dirs rootName then []
      else root :: (walkForest ignored_dirs children).map (root ++ ·)

instance {ε α : Type} [DecidableEq ε] [DecidableEq α] : DecidableEq (Except ε α) := fun a b =>
  match a, b with
  | .error e, .error f => decidable_of_iff (e = f) (by simp)
  | .error _, .ok _ => isFalse (by simp)
  | .ok _, .error _ => isFalse (by simp)
  | .ok x, .ok y => decidable_of_iff (x = y) (by simp)

/-- The grouping key of the source, struct `EcosystemPath`. -/
structure EcosystemPath where
  ecosystem : PackageEcosystem
  path : String
deriving DecidableEq, Repr

/-- The output record of the source, struct `FoundTarget`; the
`BTreeSet<String>` of file names is its sorted, deduplicated listing. -/
structure FoundTarget where
  ecosystem : PackageEcosystem
  path : String
  file_names : List String
deriving DecidableEq, Repr

/-- The `(Ecosystem, normalized directory)` key of a Found Target. -/
def targetKey (t : FoundTarget) : EcosystemPath :=
  ⟨t.ecosystem, t.path⟩

/-- Processing of one walked entry inside the `filter_map` of
`find_targets`: classify it, and on a match compute the normalized parent
directory.  A failing `strip_prefix` on the parent is the
`expect("Couldnt strip prefix")` panic, modelled as an error. -/
def classifyEntry (ecoOrder : List PackageEcosystem) (root : List String)
    (entry : List String) : Except String (Option (EcosystemPath × String)) :=
  match find_ecosystem ecoOrder entry root with
  | none => .ok none
  | some ecosystem =>
      match entry.getLast? with
      | none => .ok none
      | some file_name =>
          match stripPrefixPath root entry.dropLast with
          | none => .error "Couldnt strip prefix"
          | some rel =>
              .ok (some (⟨ecosystem, gha_or_empty ecosystem (pathToString rel)⟩, file_name))

/-- The classified stream of all walked entries, aborting at the first
panic as the Rust process would. -/
def classifyAll (ecoOrder : List PackageEcosystem) (root : List String) :
    List (List String) → Except String (List (EcosystemPath × String))
  | [] => .ok []
  | entry :: rest =>
      match classifyEntry ecoOrder root entry with
      | .error msg => .error msg
      | .ok none => classifyAll ecoOrder root rest
      | .ok (some pr) =>
          match classifyAll ecoOrder root rest with
          | .error msg => .error msg
          | .ok pairs => .ok (pr :: pairs)

/-- Listing of a `BTreeSet<String>` built from a list: ascending order,
duplicates removed. -/
def btreeSetOf (l : List String) : List String :=
  (List.insertionSort (fun a b => strLe a b = true) l).dedup

/-- The file names grouped under key `k` by `into_group_map_by`. -/
def groupFiles (pairs : List (EcosystemPath × String)) (k : EcosystemPath) : List String :=
  (pairs.filter (fun pr => decide (pr.1 = k))).map Prod.snd

/-- The Found Target assembled for one group key. -/
def mkTarget (pairs : List (EcosystemPath × String)) (k : EcosystemPath) : FoundTarget :=
  ⟨k.ecosystem, k.path, btreeSetOf (groupFiles pairs k)⟩

/-- The distinct group keys of the classified stream, in first-occurrence
order.  The `HashMap` produced by `into_group_map_by` iterates over these
keys in an unspecified order; theorems quantify over permutations of this
list where the order matters. -/
def keysOf (pairs : List (EcosystemPath × String)) : List EcosystemPath :=
  (pairs.map Prod.fst).dedup

/-- The unsorted Found Target list, one per group key, in the given key
iteration order. -/
def buildFound (pairs : List (EcosystemPath × String)) (keys : List EcosystemPath) :
    List FoundTarget :=
  keys.map (mkTarget pairs)

/-- The comparator of the final `sort_by`: ecosystem display name first,
then path. -/
def targetLe (a b : FoundTarget) : Prop :=
  (displayName a.ecosystem = displayName b.ecosystem ∧ strLe a.path b.path = true) ∨
    (displayName a.ecosystem ≠ displayName b.ecosystem ∧
      strLe (displayName a.ecosystem) (displayName b.ecosystem) = true)

instance : DecidableRel targetLe := fun a b => by
  unfold targetLe
  infer_instance

/-- The final sort of `find_targets`. -/
def sortTargets (l : List FoundTarget) : List FoundTarget :=
  List.insertionSort targetLe l

/-- Grouping and sorting of the classified stream, with the `HashMap` key
iteration order made explicit. -/
def aggregate (pairs : List (EcosystemPath × String)) (keys : List EcosystemPath) :
    List FoundTarget :=
  sortTargets (buildFound pairs keys)

/-- `find_targets` from the source: walk the tree rooted at `root` with
`filter_entry` pruning, classify every entry, group by
`(ecosystem, normalized directory)`, and sort.  The `ecoOrder` parameter
is the iteration order of the `ECOSYSTEMS` map; the canonical key order
`keysOf pairs` stands in for the group-map iteration order, which the
order-invariance theorems justify. -/
def find_targets (ignored_dirs : List String) (ecoOrder : List PackageEcosystem)
    (root : List String) (children : FSForest) : Except String (List FoundTarget) :=
  match classifyAll ecoOrder root (walkFiltered ignored_dirs root children) with
  | .error msg => .error msg
  | .ok pairs => .ok (aggregate pairs (keysOf pairs))

theorem charListLe_refl : ∀ as, charListLe as as = true
  | [] => rfl
  | a :: as => by simp [charListLe, charListLe_refl as]

theorem charListLe_total : ∀ as bs, charListLe as bs = true ∨ charListLe bs as = true
  | [], _ => Or.inl rfl
  | _ :: _, [] => Or.inr rfl
  | a :: as, b :: bs => by
      by_cases hab : a = b
      · subst hab
        simpa [charListLe] using charListLe_total as bs
      · rcases lt_or_gt_of_ne hab with h | h
        · simp [charListLe, hab, h]
        · simp [charListLe, hab, Ne.symm hab, h, not_lt_of_gt h]

theorem charListLe_antisymm : ∀ as bs, charListLe as bs = true → charListLe bs as = true → as = bs
  | [], [], _, _ => rfl
  | [], _ :: _, _, h => by simp [charListLe] at h
  | _ :: _, [], h, _ => by simp [charListLe] at h
  | a :: as, b :: bs, h₁, h₂ => by
      by_cases hab : a = b
      · subst hab
        simp only [charListLe, if_pos rfl] at h₁ h₂
        rw [charListLe_antisymm as bs h₁ h₂]
      · simp only [charListLe, if_neg hab, if_neg (Ne.symm hab), decide_eq_true_eq] at h₁ h₂
        exact absurd (lt_trans h₁ h₂) (lt_irrefl a)

theorem charListLe_trans :
    ∀ as bs cs, charListLe as bs = true → charListLe bs cs = true → charListLe as cs = true
  | [], _, _, _, _ => rfl
  | _ :: _, [], _, h, _ => by simp [charListLe] at h
  | _ :: _, _ :: _, [], _, h => by simp [charListLe] at h
  | a :: as, b :: bs, c :: cs, h₁, h₂ => by
      by_cases hab : a = b <;> by_cases hbc : b = c
      · subst hab; subst hbc
        simp only [charListLe, if_pos rfl] at h₁ h₂ ⊢
        exact charListLe_trans as bs cs h₁ h₂
      · subst hab
        simp only [charListLe, if_neg hbc] at h₂ ⊢
        exact h₂
      · subst hbc
        simp only [charListLe, if_neg hab] at h₁ ⊢
        exact h₁
      · simp only [charListLe, if_neg hab, if_neg hbc, decide_eq_true_eq] at h₁ h₂
        have hac : a < c := lt_trans h₁ h₂
        simp [charListLe, ne_of_lt hac, hac]

theorem string_of_toList_eq {a b : String} (h : a.toList = b.toList) : a = b := by
  cases a
  cases b
  simp only [String.toList] at h
  subst h
  rfl

theorem strLe_refl (a : String) : strLe a a = true :=
  charListLe_refl a.toList

theorem strLe_total (a b : String) : strLe a b = true ∨ strLe b a = true :=
  charListLe_total a.toList b.toList

theorem strLe_antisymm {a b : String} (h₁ : strLe a b = true) (h₂ : strLe b a = true) : a = b :=
  string_of_toList_eq (charListLe_antisymm _ _ h₁ h₂)

theorem strLe_trans {a b c : String} (h₁ : strLe a b = true) (h₂ : strLe b c = true) :
    strLe a c = true :=
  charListLe_trans _ _ _ h₁ h₂

theorem displayName_injective :
    ∀ e₁ e₂ : PackageEcosystem, displayName e₁ = displayName e₂ → e₁ = e₂ := by decide

theorem mem_allEcosystems : ∀ e : PackageEcosystem, e ∈ allEcosystems := by decide

instance : IsTotal FoundTarget targetLe := by
  constructor
  intro a b
  by_cases h : displayName a.ecosystem = displayName b.ecosystem
  · rcases strLe_total a.path b.path with hp | hp
    · exact Or.inl (Or.inl ⟨h, hp⟩)
    · exact Or.inr (Or.inl ⟨h.symm, hp⟩)
  · rcases strLe_total (displayName a.ecosystem) (displayName b.ecosystem) with hd | hd
    · exact Or.inl (Or.inr ⟨h, hd⟩)
    · exact Or.inr (Or.inr ⟨Ne.symm h, hd⟩)

instance : IsTrans FoundTarget targetLe := by
  constructor
  intro a b c hab hbc
  rcases hab with ⟨hab, pab⟩ | ⟨hab, dab⟩ <;> rcases hbc with ⟨hbc, pbc⟩ | ⟨hbc, dbc⟩
  · exact Or.inl ⟨hab.trans hbc, strLe_trans pab pbc⟩
  · exact Or.inr ⟨fun h => hbc (hab ▸ h), hab ▸ dbc⟩
  · exact Or.inr ⟨fun h => hab (h.trans hbc.symm), hbc ▸ dab⟩
  · refine Or.inr ⟨fun h => ?_, strLe_trans dab dbc⟩
    exact hab (strLe_antisymm dab (h ▸ dbc))

theorem findSome?_eq_none_of {α β : Type} {f : α → Option β} :
    ∀ {l : List α}, (∀ a ∈ l, f a = none) → l.findSome? f = none
  | [], _ => rfl
  | a :: l, h => by
      have ha := h a (List.mem_cons_self a l)
      simp only [List.findSome?, ha]
      exact findSome?_eq_none_of (fun x hx => h x (List.mem_cons_of_mem a hx))

theorem findSome?_eq_some_of_unique {α β : Type} {f : α → Option β} {e : α} {b : β} :
    ∀ {l : List α}, e ∈ l → f e = some b → (∀ x ∈ l, f x ≠ none → x = e) → l.findSome? f = some b
  | [], he, _, _ => absurd he (List.not_mem_nil e)
  | a :: l, he, hb, hu => by
      by_cases hae : a = e
      · subst hae
        simp [List.findSome?, hb]
      · have hfa : f a = none := by
          by_contra hne
          exact hae (hu a (List.mem_cons_self a l) hne)
        have hel : e ∈ l := by
          rcases List.mem_cons.mp he with h | h
          · exact absurd h.symm hae
          · exact h
        simp only [List.findSome?, hfa]
        exact findSome?_eq_some_of_unique hel hb
          (fun x hx => hu x (List.mem_cons_of_mem a hx))

theorem sorted_perm_eq_of_anti {α : Type} {r : α → α → Prop} :
    ∀ {l₁ l₂ : List α}, l₁.Perm l₂ → l₁.Sorted r → l₂.Sorted r →
      (∀ a ∈ l₁, ∀ b ∈ l₁, r a b → r b a → a = b) → l₁ = l₂
  | [], l₂, hp, _, _, _ => (hp.nil_eq).symm ▸ rfl
  | a :: l₁, [], hp, _, _, _ => absurd (hp.symm) (by simp)
  | a :: l₁, b :: l₂, hp, hs₁, hs₂, hanti => by
      have hab : a = b := by
        by_cases h : a = b
        · exact h
        · have hbmem : b ∈ a :: l₁ := hp.mem_iff.mpr (List.mem_cons_self b l₂)
          have hamem : a ∈ b :: l₂ := hp.mem_iff.mp (List.mem_cons_self a l₁)
          have hrb : r a b := by
            rcases List.mem_cons.mp hbmem with hh | hh
            · exact absurd hh.symm h
            · exact (List.sorted_cons.mp hs₁).1 b hh
          have hra : r b a := by
            rcases List.mem_cons.mp hamem with hh | hh
            · exact absurd hh h
            · exact (List.sorted_cons.mp hs₂).1 a hh
          exact hanti a (List.mem_cons_self a l₁) b hbmem hrb hra
      subst hab
      have hpl : l₁.Perm l₂ := hp.cons_inv
      have := sorted_perm_eq_of_anti hpl (List.sorted_cons.mp hs₁).2 (List.sorted_cons.mp hs₂).2
        (fun x hx y hy hxy hyx =>
          hanti x (List.mem_cons_of_mem a hx) y (List.mem_cons_of_mem a hy) hxy hyx)
      rw [this]

theorem find_ecosystem_canonical (o : List PackageEcosystem) (ho : o.Perm allEcosystems)
    (path root : List String)
    (hu : ∀ e₁ e₂ : PackageEcosystem, matchesAt e₁ root path = true →
        matchesAt e₂ root path = true → e₁ = e₂) :
    find_ecosystem o path root = find_ecosystem allEcosystems path root := by
  unfold find_ecosystem
  cases hl : path.getLast? with
  | none => rfl
  | some fn =>
      by_cases hex : ∃ e, matchesAt e root path = true
      · obtain ⟨e, he⟩ := hex
        have key : ∀ (l : List PackageEcosystem), l.Perm allEcosystems →
            l.findSome? (fun x => if matchesAt x root path then some x else none) = some e := by
          intro l hlp
          apply findSome?_eq_some_of_unique (e := e)
          · exact hlp.mem_iff.mpr (mem_allEcosystems e)
          · simp [he]
          · intro x _ hne
            by_cases hm : matchesAt x root path = true
            · exact hu x e hm he
            · simp [hm] at hne
        rw [key o ho, key allEcosystems (List.Perm.refl _)]
      · push_neg at hex
        have key : ∀ (l : List PackageEcosystem),
            l.findSome? (fun x => if matchesAt x root path then some x else none) = none := by
          intro l
          apply findSome?_eq_none_of
          intro x _
          simp [hex x]
        rw [key o, key allEcosystems]

theorem classifyEntry_canonical (o : List PackageEcosystem) (ho : o.Perm allEcosystems)
    (root entry : List String)
    (hu : ∀ e₁ e₂ : PackageEcosystem, matchesAt e₁ root entry = true →
        matchesAt e₂ root entry = true → e₁ = e₂) :
    classifyEntry o root entry = classifyEntry allEcosystems root entry := by
  unfold classifyEntry
  rw [find_ecosystem_canonical o ho entry root hu]

theorem classifyAll_canonical (o : List PackageEcosystem) (ho : o.Perm allEcosystems)
    (root : List String) :
    ∀ entries : List (List String),
      (∀ p ∈ entries, ∀ e₁ e₂ : PackageEcosystem, matchesAt e₁ root p = true →
          matchesAt e₂ root p = true → e₁ = e₂) →
      classifyAll o root entries = classifyAll allEcosystems root entries
  | [], _ => rfl
  | entry :: rest, h => by
      have hrest := classifyAll_canonical o ho root rest
        (fun p hp => h p (List.mem_cons_of_mem entry hp))
      unfold classifyAll
      rw [classifyEntry_canonical o ho root entry (h entry (List.mem_cons_self entry rest)), hrest]

theorem classifyAll_ok_mem {o : List PackageEcosystem} {root : List String} :
    ∀ {entries : List (List String)} {pairs : List (EcosystemPath × String)}
      {pr : EcosystemPath × String},
      classifyAll o root entries = .ok pairs → pr ∈ pairs →
      ∃ entry ∈ entries, classifyEntry o root entry = .ok (some pr)
  | [], pairs, pr, h, hm => by
      simp only [classifyAll, Except.ok.injEq] at h
      subst h
      exact absurd hm (List.not_mem_nil pr)
  | entry :: rest, pairs, pr, h, hm => by
      unfold classifyAll at h
      cases hce : classifyEntry o root entry with
      | error msg => rw [hce] at h; exact absurd h (by simp)
      | ok r =>
          rw [hce] at h
          cases r with
          | none =>
              obtain ⟨e, he, hee⟩ := classifyAll_ok_mem h hm
              exact ⟨e, List.mem_cons_of_mem entry he, hee⟩
          | some pr' =>
              cases hca : classifyAll o root rest with
              | error msg => rw [hca] at h; exact absurd h (by simp)
              | ok pairs' =>
                  rw [hca] at h
                  simp only [Except.ok.injEq] at h
                  subst h
                  rcases List.mem_cons.mp hm with h1 | h1
                  · exact ⟨entry, List.mem_cons_self entry rest, by rw [hce, h1]⟩
                  · obtain ⟨e, he, hee⟩ := classifyAll_ok_mem hca h1
                    exact ⟨e, List.mem_cons_of_mem entry he, hee⟩

theorem classifyEntry_isOk (o : List PackageEcosystem) (root entry : List String)
    (h : (find_ecosystem o entry root).isSome = true → root.isPrefixOf entry.dropLast = true) :
    ∃ r, classifyEntry o root entry = .ok r := by
  unfold classifyEntry
  cases hfe : find_ecosystem o entry root with
  | none => exact ⟨none, rfl⟩
  | some eco =>
      cases hl : entry.getLast? with
      | none => exact ⟨none, rfl⟩
      | some fn =>
          have hp : root.isPrefixOf entry.dropLast = true := h (by simp [hfe])
          refine ⟨some (⟨eco, gha_or_empty eco (pathToString (entry.dropLast.drop root.length))⟩, fn), ?_⟩
          simp [stripPrefixPath, hp]

theorem classifyAll_isOk (o : List PackageEcosystem) (root : List String) :
    ∀ entries : List (List String),
      (∀ entry ∈ entries, (find_ecosystem o entry root).isSome = true →
          root.isPrefixOf entry.dropLast = true) →
      ∃ pairs, classifyAll o root entries = .ok pairs
  | [], _ => ⟨[], rfl⟩
  | entry :: rest, h => by
      obtain ⟨r, hr⟩ := classifyEntry_isOk o root entry (h entry (List.mem_cons_self entry rest))
      obtain ⟨pairs, hps⟩ := classifyAll_isOk o root rest
        (fun q hq => h q (List.mem_cons_of_mem entry hq))
      unfold classifyAll
      rw [hr]
      cases r with
      | none => exact ⟨pairs, hps⟩
      | some pr => rw [hps]; exact ⟨pr :: pairs, rfl⟩

theorem classifyEntry_ok_some {o : List PackageEcosystem} {root entry : List String}
    {k : EcosystemPath} {f : String}
    (h : classifyEntry o root entry = .ok (some (k, f))) :
    ∃ eco rel, find_ecosystem o entry root = some eco ∧ entry.getLast? = some f ∧
      stripPrefixPath root entry.dropLast = some rel ∧
      k = ⟨eco, gha_or_empty eco (pathToString rel)⟩ := by
  unfold classifyEntry at h
  cases hfe : find_ecosystem o entry root with
  | none => rw [hfe] at h; exact absurd h (by simp)
  | some eco =>
      rw [hfe] at h
      cases hl : entry.getLast? with
      | none => rw [hl] at h; exact absurd h (by simp)
      | some fn =>
          rw [hl] at h
          cases hsp : stripPrefixPath root entry.dropLast with
          | none => rw [hsp] at h; exact absurd h (by simp)
          | some rel =>
              rw [hsp] at h
              simp only [Except.ok.injEq, Option.some.injEq, Prod.mk.injEq] at h
              refine ⟨eco, rel, rfl, ?_, rfl, h.1.symm⟩
              exact congrArg some h.2

theorem mem_sortTargets {t : FoundTarget} {l : List FoundTarget} :
    t ∈ sortTargets l ↔ t ∈ l :=
  (List.perm_insertionSort targetLe l).mem_iff

theorem mem_buildFound {t : FoundTarget} {pairs : List (EcosystemPath × String)}
    {keys : List EcosystemPath} :
    t ∈ buildFound pairs keys ↔ ∃ k ∈ keys, mkTarget pairs k = t := by
  unfold buildFound
  exact List.mem_map

theorem mem_aggregate {t : FoundTarget} {pairs : List (EcosystemPath × String)}
    {keys : List EcosystemPath} :
    t ∈ aggregate pairs keys ↔ ∃ k ∈ keys, mkTarget pairs k = t := by
  unfold aggregate
  exact mem_sortTargets.trans mem_buildFound

theorem mem_keysOf {k : EcosystemPath} {pairs : List (EcosystemPath × String)} :
    k ∈ keysOf pairs ↔ ∃ f, (k, f) ∈ pairs := by
  unfold keysOf
  rw [List.mem_dedup, List.mem_map]
  constructor
  · rintro ⟨pr, hpr, rfl⟩
    exact ⟨pr.2, by simpa using hpr⟩
  · rintro ⟨f, hf⟩
    exact ⟨(k, f), hf, rfl⟩

theorem keysOf_nodup (pairs : List (EcosystemPath × String)) : (keysOf pairs).Nodup :=
  List.nodup_dedup _

theorem targetKey_mkTarget (pairs : List (EcosystemPath × String)) (k : EcosystemPath) :
    targetKey (mkTarget pairs k) = k := rfl

theorem mem_groupFiles {x : String} {pairs : List (EcosystemPath × String)} {k : EcosystemPath} :
    x ∈ groupFiles pairs k ↔ (k, x) ∈ pairs := by
  unfold groupFiles
  rw [List.mem_map]
  constructor
  · rintro ⟨pr, hpr, rfl⟩
    rw [List.mem_filter] at hpr
    have h1 : pr.1 = k := of_decide_eq_true hpr.2
    have : (k, pr.2) = pr := by
      rw [← h1]
    rw [this]
    exact hpr.1
  · intro h
    refine ⟨(k, x), ?_, rfl⟩
    rw [List.mem_filter]
    exact ⟨h, by simp⟩

theorem mem_btreeSetOf {x : String} {l : List String} : x ∈ btreeSetOf l ↔ x ∈ l := by
  unfold btreeSetOf
  rw [List.mem_dedup]
  exact (List.perm_insertionSort _ l).mem_iff

theorem btreeSetOf_sorted (l : List String) :
    (btreeSetOf l).Sorted (fun a b => strLe a b = true) := by
  haveI : IsTotal String (fun a b => strLe a b = true) := ⟨strLe_total⟩
  haveI : IsTrans String (fun a b => strLe a b = true) := ⟨fun _ _ _ => strLe_trans⟩
  exact List.Pairwise.sublist (List.dedup_sublist _) (List.sorted_insertionSort _ _)

theorem btreeSetOf_nodup (l : List String) : (btreeSetOf l).Nodup :=
  List.nodup_dedup _

theorem sortTargets_sorted (l : List FoundTarget) : (sortTargets l).Sorted targetLe :=
  List.sorted_insertionSort targetLe l

theorem mkTarget_anti {pairs : List (EcosystemPath × String)} {a b : FoundTarget}
    {ka kb : EcosystemPath} (ha : mkTarget pairs ka = a) (hb : mkTarget pairs kb = b)
    (hab : targetLe a b) (hba : targetLe b a) : a = b := by
  have hdn : displayName a.ecosystem = displayName b.ecosystem := by
    rcases hab with ⟨h, _⟩ | ⟨hne, hle⟩
    · exact h
    · rcases hba with ⟨h, _⟩ | ⟨_, hle2⟩
      · exact h.symm
      · exact absurd (strLe_antisymm hle hle2) hne
  have heco : a.ecosystem = b.ecosystem := displayName_injective _ _ hdn
  have hpath : a.path = b.path := by
    rcases hab with ⟨_, hp⟩ | ⟨hne, _⟩
    · rcases hba with ⟨_, hp2⟩ | ⟨hne2, _⟩
      · exact strLe_antisymm hp hp2
      · exact absurd hdn.symm hne2
    · exact absurd hdn hne
  have h1 : ka.ecosystem = kb.ecosystem := by
    rw [← ha, ← hb] at heco
    exact heco
  have h2 : ka.path = kb.path := by
    rw [← ha, ← hb] at hpath
    exact hpath
  have hk : ka = kb := by
    cases ka
    cases kb
    simp only at h1 h2
    rw [h1, h2]
  rw [← ha, ← hb, hk]

theorem aggregate_perm_keys (pairs : List (EcosystemPath × String))
    {k₁ k₂ : List EcosystemPath} (hk : k₁.Perm k₂) :
    aggregate pairs k₁ = aggregate pairs k₂ := by
  have hperm : (aggregate pairs k₁).Perm (aggregate pairs k₂) := by
    unfold aggregate sortTargets
    exact ((List.perm_insertionSort targetLe _).trans (hk.map (mkTarget pairs))).trans
      (List.perm_insertionSort targetLe _).symm
  apply sorted_perm_eq_of_anti hperm (sortTargets_sorted _) (sortTargets_sorted _)
  intro a hA b hB hab hba
  obtain ⟨ka, _, hka⟩ := mem_aggregate.mp hA
  obtain ⟨kb, _, hkb⟩ := mem_aggregate.mp hB
  exact mkTarget_anti hka hkb hab hba

mutual
theorem walkTree_mem (ign : List String) :
    ∀ (t : FSTree) (p : List String), p ∈ walkTree ign t →
      p ≠ [] ∧ ∀ c ∈ p, is_ignored ign c = false
  | .file n, p, hp => by
      by_cases h : is_ignored ign n = true
      · simp only [walkTree, if_pos h] at hp
        exact absurd hp (List.not_mem_nil p)
      · simp only [walkTree, if_neg h] at hp
        have hpn : p = [n] := by simpa using hp
        subst hpn
        refine ⟨by simp, ?_⟩
        intro c hc
        have hcn : c = n := by simpa using hc
        subst hcn
        exact Bool.eq_false_iff.mpr h
  | .dir n cs, p, hp => by
      by_cases h : is_ignored ign n = true
      · simp only [walkTree, if_pos h] at hp
        exact absurd hp (List.not_mem_nil p)
      · simp only [walkTree, if_neg h] at hp
        rcases List.mem_cons.mp hp with h1 | h1
        · subst h1
          refine ⟨by simp, ?_⟩
          intro c hc
          have hcn : c = n := by simpa using hc
          subst hcn
          exact Bool.eq_false_iff.mpr h
        · obtain ⟨q, hq, hpq⟩ := List.mem_map.mp h1
          subst hpq
          obtain ⟨hq1, hq2⟩ := walkForest_mem ign cs q hq
          refine ⟨by simp, ?_⟩
          intro c hc
          rcases List.mem_cons.mp hc with h2 | h2
          · subst h2
            exact Bool.eq_false_iff.mpr h
          · exact hq2 c h2
theorem walkForest_mem (ign : List String) :
    ∀ (ts : FSForest) (p : List String), p ∈ walkForest ign ts →
      p ≠ [] ∧ ∀ c ∈ p, is_ignored ign c = false
  | .nil, p, hp => by simp [walkForest] at hp
  | .cons t ts, p, hp => by
      simp only [walkForest] at hp
      rcases List.mem_append.mp hp with h | h
      · exact walkTree_mem ign t p h
      · exact walkForest_mem ign ts p h
end

theorem find_targets_ok_elim {ignored_dirs : List String} {ecoOrder : List PackageEcosystem}
    {root : List String} {children : FSForest} {res : List FoundTarget}
    (hf : find_targets ignored_dirs ecoOrder root children = .ok res) :
    ∃ pairs, classifyAll ecoOrder root (walkFiltered ignored_dirs root children) = .ok pairs ∧
      res = aggregate pairs (keysOf pairs) := by
  unfold find_targets at hf
  cases hc : classifyAll ecoOrder root (walkFiltered ignored_dirs root children) with
  | error msg => rw [hc] at hf; exact absurd hf (by simp)
  | ok pairs =>
      rw [hc] at hf
      have hf2 : Except.ok (aggregate pairs (keysOf pairs)) =
          (Except.ok res : Except String (List FoundTarget)) := hf
      injection hf2 with hf3
      exact ⟨pairs, rfl, hf3.symm⟩

/-- C1: for a scan root containing exactly the files `package.json`,
`package-lock.json`, `Cargo.toml` and `.github/workflows/ci.yml`,
`find_targets` returns exactly three Found Targets, namely
`(cargo, /, {Cargo.toml})`, `(github-actions, /, {ci.yml})` and
`(npm, /, {package-lock.json, package.json})`, ordered by ascending
ecosystem display name as cargo, github-actions, npm. -/
theorem C1_concrete_scenario :
    find_targets [] allEcosystems ["r"]
        (.cons (.file "package.json") (.cons (.file "package-lock.json")
          (.cons (.file "Cargo.toml")
            (.cons (.dir ".github" (.cons (.dir "workflows" (.cons (.file "ci.yml") .nil)) .nil))
              .nil)))) =
      Except.ok [⟨Cargo, rootMarker, ["Cargo.toml"]⟩,
        ⟨GithubActions, rootMarker, ["ci.yml"]⟩,
        ⟨Npm, rootMarker, ["package-lock.json", "package.json"]⟩] ∧
    strLe (displayName Cargo) (displayName GithubActions) = true ∧
    strLe (displayName GithubActions) (displayName Npm) = true := by decide

/-- C2: the target list returned by `find_targets` has no two Found
Targets with the same `(ecosystem, normalized directory)` key, and every
pair of classified file names sharing one key lands in exactly one Found
Target whose file-name set contains both, sorted and deduplicated. -/
theorem C2_no_duplicate_target_keys (ignored_dirs : List String)
    (ecoOrder : List PackageEcosystem) (root : List String) (children : FSForest)
    (pairs : List (EcosystemPath × String)) (res : List FoundTarget)
    (hc : classifyAll ecoOrder root (walkFiltered ignored_dirs root children) =
      Except.ok pairs)
    (hf : find_targets ignored_dirs ecoOrder root children = Except.ok res) :
    (res.map targetKey).Nodup ∧
    ∀ (ep : EcosystemPath) (f₁ f₂ : String), (ep, f₁) ∈ pairs → (ep, f₂) ∈ pairs →
      ∃ t, t ∈ res ∧ targetKey t = ep ∧ f₁ ∈ t.file_names ∧ f₂ ∈ t.file_names ∧
        t.file_names.Sorted (fun a b => strLe a b = true) ∧ t.file_names.Nodup ∧
        ∀ u, u ∈ res → targetKey u = ep → u = t := by
  obtain ⟨pairs', hc', hres⟩ := find_targets_ok_elim hf
  have hpp : pairs' = pairs := by
    rw [hc'] at hc
    injection hc
  rw [hpp] at hres
  subst hres
  constructor
  · have hpm : (aggregate pairs (keysOf pairs)).Perm (buildFound pairs (keysOf pairs)) :=
      List.perm_insertionSort targetLe _
    have hmap : (buildFound pairs (keysOf pairs)).map targetKey = keysOf pairs := by
      unfold buildFound
      rw [List.map_map]
      have hid : (targetKey ∘ mkTarget pairs) = id := by
        funext k
        rfl
      rw [hid, List.map_id]
    rw [(hpm.map targetKey).nodup_iff, hmap]
    exact keysOf_nodup pairs
  · intro ep f₁ f₂ h₁ h₂
    refine ⟨mkTarget pairs ep, ?_, rfl, ?_, ?_, btreeSetOf_sorted _, btreeSetOf_nodup _, ?_⟩
    · exact mem_aggregate.mpr ⟨ep, mem_keysOf.mpr ⟨f₁, h₁⟩, rfl⟩
    · exact mem_btreeSetOf.mpr (mem_groupFiles.mpr h₁)
    · exact mem_btreeSetOf.mpr (mem_groupFiles.mpr h₂)
    · intro u hu hku
      obtain ⟨k, _, hmk⟩ := mem_aggregate.mp hu
      have hkep : k = ep := by
        rw [← hku, ← hmk]
        rfl
      rw [← hmk, hkep]

/-- C2 witness: the claim instantiated on a root holding `package.json`
and `package-lock.json`. -/
theorem C2_witness :
    (([⟨Npm, "/", ["package-lock.json", "package.json"]⟩] : List FoundTarget).map
      targetKey).Nodup ∧
    ∀ (ep : EcosystemPath) (f₁ f₂ : String),
      (ep, f₁) ∈ ([(⟨Npm, "/"⟩, "package.json"), (⟨Npm, "/"⟩, "package-lock.json")] :
        List (EcosystemPath × String)) →
      (ep, f₂) ∈ ([(⟨Npm, "/"⟩, "package.json"), (⟨Npm, "/"⟩, "package-lock.json")] :
        List (EcosystemPath × String)) →
      ∃ t, t ∈ ([⟨Npm, "/", ["package-lock.json", "package.json"]⟩] : List FoundTarget) ∧
        targetKey t = ep ∧ f₁ ∈ t.file_names ∧ f₂ ∈ t.file_names ∧
        t.file_names.Sorted (fun a b => strLe a b = true) ∧ t.file_names.Nodup ∧
        ∀ u, u ∈ ([⟨Npm, "/", ["package-lock.json", "package.json"]⟩] : List FoundTarget) →
          targetKey u = ep → u = t :=
  C2_no_duplicate_target_keys [] allEcosystems ["r"]
    (.cons (.file "package.json") (.cons (.file "package-lock.json") .nil))
    [(⟨Npm, "/"⟩, "package.json"), (⟨Npm, "/"⟩, "package-lock.json")]
    [⟨Npm, "/", ["package-lock.json", "package.json"]⟩] (by decide) (by decide)

/-- C3: every Found Target of the CI-workflow ecosystem has the root
marker as its normalized directory, whatever the nesting depth of the
workflow file was. -/
theorem C3_workflow_targets_root (ignored_dirs : List String)
    (ecoOrder : List PackageEcosystem) (root : List String) (children : FSForest)
    (res : List FoundTarget) (t : FoundTarget)
    (hf : find_targets ignored_dirs ecoOrder root children = Except.ok res)
    (ht : t ∈ res) (he : t.ecosystem = GithubActions) :
    t.path = rootMarker := by
  obtain ⟨pairs, hc, hres⟩ := find_targets_ok_elim hf
  subst hres
  obtain ⟨k, hk, hmk⟩ := mem_aggregate.mp ht
  obtain ⟨f, hkf⟩ := mem_keysOf.mp hk
  obtain ⟨entry, _, hce⟩ := classifyAll_ok_mem hc hkf
  obtain ⟨eco, rel, _, _, _, hkeq⟩ := classifyEntry_ok_some hce
  have hpath : t.path = gha_or_empty eco (pathToString rel) := by
    rw [← hmk, hkeq]
    rfl
  have hecoeq : eco = GithubActions := by
    have hte : t.ecosystem = eco := by
      rw [← hmk, hkeq]
      rfl
    rw [← hte]
    exact he
  rw [hpath, hecoeq]
  simp [gha_or_empty]

/-- C3 witness: a workflow file three levels under `.github/workflows`
still yields the root marker. -/
theorem C3_witness :
    (⟨GithubActions, "/", ["deep.yml"]⟩ : FoundTarget).path = rootMarker :=
  C3_workflow_targets_root [] allEcosystems ["r"]
    (.cons (.dir ".github" (.cons (.dir "workflows"
      (.cons (.dir "sub" (.cons (.file "deep.yml") .nil)) .nil)) .nil)) .nil)
    [⟨GithubActions, "/", ["deep.yml"]⟩] ⟨GithubActions, "/", ["deep.yml"]⟩
    (by decide) (by decide) rfl

/-- C4 counterexample: the basename `pnpm-lock.yaml` matches exactly one
ecosystem glob set (npm), yet for the file
`.github/workflows/pnpm-lock.yaml` the classifier under the insertion
iteration order returns `github-actions`, because the path-based
CI-workflow test fires first. -/
theorem C4_counterexample :
    (∀ e : PackageEcosystem, isMatch (globsetOf e) "pnpm-lock.yaml" = true ↔ e = Npm) ∧
    find_ecosystem allEcosystems ["r", ".github", "workflows", "pnpm-lock.yaml"] ["r"] =
      some GithubActions ∧
    GithubActions ≠ Npm := by decide

/-- C4 amended: for every iteration order, a file entry whose root-relative
path does not satisfy the path-based CI-workflow test and whose basename
matches the glob set of exactly one (filename-matched) ecosystem is
classified as that ecosystem. -/
theorem C4_unique_filename_match (o : List PackageEcosystem) (ho : o.Perm allEcosystems)
    (path root : List String) (e : PackageEcosystem) (fn : String)
    (hfn : path.getLast? = some fn)
    (hgha : matchesAt GithubActions root path = false)
    (hne : e ≠ GithubActions)
    (hm : isMatch (globsetOf e) fn = true)
    (hu : ∀ x : PackageEcosystem, isMatch (globsetOf x) fn = true → x = e) :
    find_ecosystem o path root = some e := by
  unfold find_ecosystem
  rw [hfn]
  apply findSome?_eq_some_of_unique (e := e)
  · exact ho.mem_iff.mpr (mem_allEcosystems e)
  · have hme : matchesAt e root path = true := by
      unfold matchesAt
      rw [if_neg hne, hfn]
      exact hm
    simp [hme]
  · intro x _ hxe
    by_cases hxm : matchesAt x root path = true
    · by_cases hxg : x = GithubActions
      · subst hxg
        rw [hgha] at hxm
        exact absurd hxm (by simp)
      · have hxf : isMatch (globsetOf x) fn = true := by
          unfold matchesAt at hxm
          rw [if_neg hxg, hfn] at hxm
          exact hxm
        exact hu x hxf
    · simp [hxm] at hxe

/-- C4 witness: `a/Cargo.toml` under the root is classified as cargo for
the insertion iteration order. -/
theorem C4_witness :
    find_ecosystem allEcosystems ["r", "a", "Cargo.toml"] ["r"] = some Cargo :=
  C4_unique_filename_match allEcosystems (List.Perm.refl _) ["r", "a", "Cargo.toml"] ["r"]
    Cargo "Cargo.toml" (by decide) (by decide) (by decide) (by decide) (by decide)

/-- C5 counterexample: on a tree holding the single file
`requirements-Dockerfile.txt`, two runs whose `ECOSYSTEMS` iteration
orders differ (both are permutations of the key set) return different
target lists, so two runs of `find_targets` on an unchanged tree need not
agree. -/
theorem C5_counterexample :
    (Pip :: allEcosystems.erase Pip).Perm allEcosystems ∧
    find_targets [] allEcosystems ["r"] (.cons (.file "requirements-Dockerfile.txt") .nil) =
      Except.ok [⟨Docker, rootMarker, ["requirements-Dockerfile.txt"]⟩] ∧
    find_targets [] (Pip :: allEcosystems.erase Pip) ["r"]
        (.cons (.file "requirements-Dockerfile.txt") .nil) =
      Except.ok [⟨Pip, rootMarker, ["requirements-Dockerfile.txt"]⟩] ∧
    find_targets [] allEcosystems ["r"] (.cons (.file "requirements-Dockerfile.txt") .nil) ≠
      find_targets [] (Pip :: allEcosystems.erase Pip) ["r"]
        (.cons (.file "requirements-Dockerfile.txt") .nil) := by decide

/-- C5 amended: on a tree where every walked entry is matched by at most
one ecosystem test, the output of `find_targets` is independent of the
`ECOSYSTEMS` iteration order, and the grouped output is independent of the
group-map iteration order. -/
theorem C5_deterministic_without_overlap (ignored_dirs : List String) (root : List String)
    (children : FSForest) (o₁ o₂ : List PackageEcosystem)
    (h₁ : o₁.Perm allEcosystems) (h₂ : o₂.Perm allEcosystems)
    (hu : ∀ p ∈ walkFiltered ignored_dirs root children, ∀ e₁ e₂ : PackageEcosystem,
        matchesAt e₁ root p = true → matchesAt e₂ root p = true → e₁ = e₂) :
    find_targets ignored_dirs o₁ root children = find_targets ignored_dirs o₂ root children ∧
    ∀ (pairs : List (EcosystemPath × String)) (k₁ k₂ : List EcosystemPath),
      k₁.Perm k₂ → aggregate pairs k₁ = aggregate pairs k₂ := by
  constructor
  · unfold find_targets
    rw [classifyAll_canonical o₁ h₁ root _ hu, classifyAll_canonical o₂ h₂ root _ hu]
  · intro pairs k₁ k₂ hk
    exact aggregate_perm_keys pairs hk

/-- C5 witness: the reversed iteration order gives the same output as the
insertion order on an unambiguous tree. -/
theorem C5_witness :
    find_targets [] allEcosystems.reverse ["r"] (.cons (.file "Cargo.toml") .nil) =
      find_targets [] allEcosystems ["r"] (.cons (.file "Cargo.toml") .nil) :=
  (C5_deterministic_without_overlap [] ["r"] (.cons (.file "Cargo.toml") .nil)
    allEcosystems.reverse allEcosystems (List.reverse_perm _) (List.Perm.refl _)
    (by decide)).1

/-- C6 counterexample: the file name `requirements-Dockerfile.txt` is
matched by the glob sets of two different ecosystems, docker and pip, so
the pattern sets are not pairwise disjoint by filename shape. -/
theorem C6_counterexample :
    isMatch (globsetOf Docker) "requirements-Dockerfile.txt" = true ∧
    isMatch (globsetOf Pip) "requirements-Dockerfile.txt" = true ∧
    Docker ≠ Pip := by decide

/-- C6 amended: the ecosystem pattern sets are not pairwise disjoint by
filename shape, and for an overlapping filename the classifier result does
depend on the iteration order over ecosystems: two permutations of the key
set classify `requirements-Dockerfile.txt` differently. -/
theorem C6_patterns_overlap :
    (¬ ∀ (fn : String) (e₁ e₂ : PackageEcosystem),
        isMatch (globsetOf e₁) fn = true → isMatch (globsetOf e₂) fn = true → e₁ = e₂) ∧
    (Pip :: allEcosystems.erase Pip).Perm allEcosystems ∧
    find_ecosystem allEcosystems ["requirements-Dockerfile.txt"] [] = some Docker ∧
    find_ecosystem (Pip :: allEcosystems.erase Pip) ["requirements-Dockerfile.txt"] [] =
      some Pip := by
  refine ⟨?_, by decide, by decide, by decide⟩
  intro h
  have hdp := h "requirements-Dockerfile.txt" Docker Pip (by decide) (by decide)
  exact absurd hdp (by decide)

/-- C7 counterexample: `devcontainer.json` directly at the scan root is a
dev-container file whose relative parent directory is empty, so it is
neither the `.devcontainer` directory nor under it, yet its normalized
directory is the root marker rather than the verbatim empty relative
parent. -/
theorem C7_counterexample :
    classifyEntry allEcosystems ["r"] ["r", "devcontainer.json"] =
      Except.ok (some (⟨Devcontainers, rootMarker⟩, "devcontainer.json")) ∧
    stripPrefixPath ["r"] ((["r", "devcontainer.json"] : List String).dropLast) = some [] ∧
    pathToString [] = "" ∧
    ("" : String) ≠ ".devcontainer" ∧ strHasPfx ".devcontainer/" "" = false ∧
    rootMarker ≠ "" := by decide

/-- C7 amended: a file classified as dev-container normalizes to the root
marker exactly when its relative parent directory is empty (the scan root
itself), is `.devcontainer`, or lies under `.devcontainer`; in every other
case the normalized directory is the verbatim relative parent path. -/
theorem C7_devcontainer_normalization (o : List PackageEcosystem) (root entry : List String)
    (k : EcosystemPath) (fn : String) (rel : List String)
    (hc : classifyEntry o root entry = Except.ok (some (k, fn)))
    (he : k.ecosystem = Devcontainers)
    (hr : stripPrefixPath root entry.dropLast = some rel)
    (hnp : pathToString rel ≠ rootMarker) :
    (k.path = rootMarker ↔
      (pathToString rel = "" ∨ pathToString rel = ".devcontainer" ∨
        strHasPfx ".devcontainer/" (pathToString rel) = true)) ∧
    (¬ (pathToString rel = "" ∨ pathToString rel = ".devcontainer" ∨
        strHasPfx ".devcontainer/" (pathToString rel) = true) →
      k.path = pathToString rel) := by
  obtain ⟨eco, rel', hfe, hl, hsp, hkeq⟩ := classifyEntry_ok_some hc
  have hrel : rel' = rel := by
    rw [hr] at hsp
    injection hsp with h
    exact h.symm
  rw [hrel] at hkeq
  have heco : eco = Devcontainers := by
    rw [hkeq] at he
    exact he
  have hkp : k.path = gha_or_empty Devcontainers (pathToString rel) := by
    rw [hkeq, heco]
  by_cases hd : pathToString rel = "" ∨ pathToString rel = ".devcontainer" ∨
      strHasPfx ".devcontainer/" (pathToString rel) = true
  · have hroot : k.path = rootMarker := by
      rw [hkp]
      unfold gha_or_empty
      rw [if_pos ?cond]
      case cond =>
        rcases hd with h | h | h
        · exact Or.inl h
        · exact Or.inr (Or.inr ⟨rfl, Or.inl h⟩)
        · exact Or.inr (Or.inr ⟨rfl, Or.inr h⟩)
    exact ⟨⟨fun _ => hd, fun _ => hroot⟩, fun hcon => absurd hd hcon⟩
  · have hverb : k.path = pathToString rel := by
      rw [hkp]
      unfold gha_or_empty
      rw [if_neg ?cond]
      case cond =>
        intro hcon
        rcases hcon with h | h | ⟨_, h⟩
        · exact hd (Or.inl h)
        · exact absurd h (by decide)
        · exact hd (Or.inr h)
    refine ⟨⟨fun hh => ?_, fun hh => absurd hh hd⟩, fun _ => hverb⟩
    rw [hverb] at hh
    exact absurd hh hnp

/-- C7 witness: a dev-container file under `.devcontainer/sub` normalizes
to the root marker, and the amended characterization holds there. -/
theorem C7_witness :
    ((⟨Devcontainers, "/"⟩ : EcosystemPath).path = rootMarker ↔
      (pathToString [".devcontainer", "sub"] = "" ∨
        pathToString [".devcontainer", "sub"] = ".devcontainer" ∨
        strHasPfx ".devcontainer/" (pathToString [".devcontainer", "sub"]) = true)) ∧
    (¬ (pathToString [".devcontainer", "sub"] = "" ∨
        pathToString [".devcontainer", "sub"] = ".devcontainer" ∨
        strHasPfx ".devcontainer/" (pathToString [".devcontainer", "sub"]) = true) →
      (⟨Devcontainers, "/"⟩ : EcosystemPath).path = pathToString [".devcontainer", "sub"]) :=
  C7_devcontainer_normalization allEcosystems ["r"]
    ["r", ".devcontainer", "sub", "devcontainer.json"] ⟨Devcontainers, "/"⟩
    "devcontainer.json" [".devcontainer", "sub"] (by decide) rfl (by decide) (by decide)

/-- C8: a path that lies under a directory whose basename is in the ignore
set (the ignored name occurs among the proper ancestors inside the
root-relative part) is never yielded by the filtered walk, because the
ignored subtree is pruned before descending; hence no Found Target can
reference such a file. -/
theorem C8_ignored_subtree_pruned (ignored_dirs : List String) (root : List String)
    (children : FSForest) (p : List String) (c : String)
    (hc : c ∈ ignored_dirs) (hanc : c ∈ ((p.drop root.length).dropLast)) :
    p ∉ walkFiltered ignored_dirs root children := by
  intro hp
  unfold walkFiltered at hp
  cases hl : root.getLast? with
  | none =>
      rw [hl] at hp
      exact absurd hp (List.not_mem_nil p)
  | some rn =>
      rw [hl] at hp
      have hp2 : p ∈ (if is_ignored ignored_dirs rn = true then []
          else root :: (walkForest ignored_dirs children).map (root ++ ·)) := hp
      by_cases hig : is_ignored ignored_dirs rn = true
      · rw [if_pos hig] at hp2
        exact absurd hp2 (List.not_mem_nil p)
      · rw [if_neg hig] at hp2
        rcases List.mem_cons.mp hp2 with h | h
        · subst h
          rw [List.drop_length] at hanc
          exact absurd hanc (List.not_mem_nil c)
        · obtain ⟨q, hq, hpq⟩ := List.mem_map.mp h
          subst hpq
          obtain ⟨_, hq2⟩ := walkForest_mem ignored_dirs children q hq
          rw [List.drop_left] at hanc
          have hcq : c ∈ q := (List.dropLast_sublist q).subset hanc
          have hfalse := hq2 c hcq
          have htrue : is_ignored ignored_dirs c = true := by
            unfold is_ignored
            exact List.elem_eq_true_of_mem hc
          rw [hfalse] at htrue
          exact absurd htrue (by simp)

/-- C8 witness: the lockfile inside an ignored `node_modules` subtree is
not walked. -/
theorem C8_witness :
    (["r", "node_modules", "package.json"] : List String) ∉
      walkFiltered ["node_modules"] ["r"]
        (.cons (.dir "node_modules" (.cons (.file "package.json") .nil)) .nil) :=
  C8_ignored_subtree_pruned ["node_modules"] ["r"]
    (.cons (.dir "node_modules" (.cons (.file "package.json") .nil)) .nil)
    ["r", "node_modules", "package.json"] "node_modules" (by decide) (by decide)

/-- C9: every target list returned by `find_targets` is sorted by the
lexicographic order on (ecosystem display name, normalized directory), and
the file-name set of every Found Target is sorted and duplicate-free. -/
theorem C9_output_sorted (ignored_dirs : List String) (ecoOrder : List PackageEcosystem)
    (root : List String) (children : FSForest) (res : List FoundTarget)
    (hf : find_targets ignored_dirs ecoOrder root children = Except.ok res) :
    res.Sorted targetLe ∧
    ∀ t ∈ res, t.file_names.Sorted (fun a b => strLe a b = true) ∧ t.file_names.Nodup := by
  obtain ⟨pairs, _, hres⟩ := find_targets_ok_elim hf
  subst hres
  refine ⟨sortTargets_sorted _, ?_⟩
  intro t ht
  obtain ⟨k, _, hmk⟩ := mem_aggregate.mp ht
  rw [← hmk]
  exact ⟨btreeSetOf_sorted _, btreeSetOf_nodup _⟩

/-- C9 witness: the claim instantiated on a root holding `Cargo.toml` and
`package.json`. -/
theorem C9_witness :
    ([⟨Cargo, "/", ["Cargo.toml"]⟩, ⟨Npm, "/", ["package.json"]⟩] :
      List FoundTarget).Sorted targetLe ∧
    ∀ t ∈ ([⟨Cargo, "/", ["Cargo.toml"]⟩, ⟨Npm, "/", ["package.json"]⟩] : List FoundTarget),
      t.file_names.Sorted (fun a b => strLe a b = true) ∧ t.file_names.Nodup :=
  C9_output_sorted [] allEcosystems ["r"]
    (.cons (.file "Cargo.toml") (.cons (.file "package.json") .nil))
    [⟨Cargo, "/", ["Cargo.toml"]⟩, ⟨Npm, "/", ["package.json"]⟩] (by decide)

/-- C10: when every walked entry that the classifier matches lies strictly
below the scan root, so its parent still has the root as a prefix, the
prefix stripping in `find_targets` always succeeds and the function
returns a result; without that precondition it reaches the
`expect("Couldnt strip prefix")` panic, as for a scan root directory
itself named `myDockerfile` (the panic message is modelled without the
apostrophe). -/
theorem C10_strip_panic (ignored_dirs : List String) (ecoOrder : List PackageEcosystem)
    (root : List String) (children : FSForest)
    (hsafe : ∀ p ∈ walkFiltered ignored_dirs root children,
        (find_ecosystem ecoOrder p root).isSome = true →
        root.isPrefixOf p.dropLast = true) :
    (∃ res, find_targets ignored_dirs ecoOrder root children = Except.ok res) ∧
    find_targets [] allEcosystems ["myDockerfile"] .nil =
      Except.error "Couldnt strip prefix" := by
  constructor
  · obtain ⟨pairs, hp⟩ := classifyAll_isOk ecoOrder root _ hsafe
    refine ⟨aggregate pairs (keysOf pairs), ?_⟩
    unfold find_targets
    rw [hp]
  · decide

/-- C10 witness: the safe precondition discharged on a one-file tree. -/
theorem C10_witness :
    (∃ res, find_targets [] allEcosystems ["r"] (.cons (.file "Cargo.toml") .nil) =
      Except.ok res) ∧
    find_targets [] allEcosystems ["myDockerfile"] .nil =
      Except.error "Couldnt strip prefix" :=
  C10_strip_panic [] allEcosystems ["r"] (.cons (.file "Cargo.toml") .nil) (by decide)
